import Mathlib

/-!
Verification of the BohemianServer routing/dispatch engine.

This file shallowly embeds the parts of the TypeScript source relevant to the
routing, caching and middleware-dispatch claims:

* `jsGet` / `jsSet` / `jsDelete` model a JavaScript `Map` as an association
  list in insertion order (JS `Map` iterates in insertion order; `set` on an
  existing key updates the value in place without changing its position;
  `set` on a fresh key appends; `delete` removes the entry).
* `LRUCache` models `src/server/utils/LRUCache.ts`.
* `RouteNode` / `RouterHandler.addSegs` / `normalizePath` model the route trie
  and its registration (`RouterHandler.ts`, the variant whose `add` stores the
  route under `node.methods[route.method]`, which is the one
  `DomainHandler.find` reads).
* `DomainThree` / `DomainHandler.find` / `handleRequest` /
  `executeMiddlewares` model `DomainHandler.ts`.

Callbacks are embedded as a small action language (`CbAction`): a callback can
call its continuation, not call it, or throw synchronously; executing a
callback appends its label together with the request parameters it observes to
an execution log.
-/

/-! ## Data model and operations, embedded from the source -/

/-- JS `Map.get`: value of the first (unique) entry with the given key. -/
def jsGet {K V : Type} [DecidableEq K] : List (K × V) → K → Option V
  | [], _ => none
  | p :: rest, k => if p.1 = k then some p.2 else jsGet rest k

/-- JS `Map.set`: update in place if the key is present (keeping its position
in iteration order), otherwise append at the end. -/
def jsSet {K V : Type} [DecidableEq K] : List (K × V) → K → V → List (K × V)
  | [], k, v => [(k, v)]
  | p :: rest, k, v => if p.1 = k then (k, v) :: rest else p :: jsSet rest k v

/-- JS `Map.delete`: remove the (unique) entry with the given key. -/
def jsDelete {K V : Type} [DecidableEq K] : List (K × V) → K → List (K × V)
  | [], _ => []
  | p :: rest, k => if p.1 = k then rest else p :: jsDelete rest k

/-- JS `Map.has`. -/
def jsHas {K V : Type} [DecidableEq K] (m : List (K × V)) (k : K) : Bool :=
  (jsGet m k).isSome

/-- The keys of a JS map, in iteration order. -/
def jsKeys {K V : Type} (m : List (K × V)) : List K :=
  m.map Prod.fst

/--
Model of `LRUCache<K, V>` (`LRUCache.ts`): a `maxSize` bound and the backing
`Map`, kept in insertion order.
-/
structure LRUCache (K V : Type) where
  maxSize : Nat
  cache : List (K × V)

/-- A fresh cache, as built by the `LRUCache` constructor. -/
def LRUCache.empty (K V : Type) (maxSize : Nat) : LRUCache K V :=
  { maxSize := maxSize, cache := [] }

/--
`LRUCache.get`: on a hit the entry is deleted and re-inserted at the end
(most recently used); on a miss the cache is unchanged.
-/
def LRUCache.get {K V : Type} [DecidableEq K] (c : LRUCache K V) (k : K) :
    Option V × LRUCache K V :=
  match jsGet c.cache k with
  | none => (none, c)
  | some v => (some v, { c with cache := jsSet (jsDelete c.cache k) k v })

/--
`LRUCache.set`: if `size >= maxSize` the first key in iteration order is
deleted (`cache.keys().next().value`; deleting `undefined` on an empty map is
a no-op), then the pair is written with `Map.set` — which, for a key already
present, updates the value in place without moving it to the end.
-/
def LRUCache.set {K V : Type} [DecidableEq K] (c : LRUCache K V) (k : K) (v : V) :
    LRUCache K V :=
  let cache1 :=
    if c.maxSize ≤ c.cache.length then
      match jsKeys c.cache with
      | [] => c.cache
      | firstKey :: _ => jsDelete c.cache firstKey
    else c.cache
  { c with cache := jsSet cache1 k v }

/-- JS `String.split` with a single-character separator, on char lists:
`"a//b".split('/') = ["a", "", "b"]`. -/
def splitOnChar (sep : Char) : List Char → List (List Char)
  | [] => [[]]
  | c :: rest =>
    match splitOnChar sep rest with
    | [] => [[]]
    | chunk :: chunks =>
      if c = sep then [] :: chunk :: chunks else (c :: chunk) :: chunks

/-- JS `String.split` with a single-character separator, on strings. -/
def splitOnCharS (sep : Char) (s : String) : List String :=
  (splitOnChar sep s.data).map (fun l => ⟨l⟩)

/-- Value of a hexadecimal digit. -/
def hexVal (c : Char) : Option Nat :=
  if '0' ≤ c ∧ c ≤ '9' then some (c.toNat - '0'.toNat)
  else if 'a' ≤ c ∧ c ≤ 'f' then some (c.toNat - 'a'.toNat + 10)
  else if 'A' ≤ c ∧ c ≤ 'F' then some (c.toNat - 'A'.toNat + 10)
  else none

/-- Percent-decoding of `%hh` escape sequences, modelling the JS builtin
`decodeURIComponent` on ASCII data (malformed escapes are left verbatim;
none of the verified inputs contain them). -/
def percentDecode : List Char → List Char
  | [] => []
  | '%' :: a :: b :: rest =>
    match hexVal a, hexVal b with
    | some ha, some hb => Char.ofNat (16 * ha + hb) :: percentDecode rest
    | _, _ => '%' :: percentDecode (a :: b :: rest)
  | c :: rest => c :: percentDecode rest

/-- Model of the JS builtin `decodeURIComponent`. -/
def decodeURIComponent (s : String) : String :=
  ⟨percentDecode s.data⟩

/-- `path.replace(/\/+/g, '/')`: collapse each run of slashes to one. -/
def collapseSlashes : List Char → List Char
  | [] => []
  | c :: rest =>
    match rest with
    | [] => [c]
    | b :: rest2 =>
      if c = '/' ∧ b = '/' then collapseSlashes (b :: rest2)
      else c :: collapseSlashes (b :: rest2)

/-- `path.replace(/\/$/, '')`: drop one trailing slash if present. -/
def stripTrailingSlash : List Char → List Char
  | [] => []
  | c :: rest =>
    match rest with
    | [] => if c = '/' then [] else [c]
    | b :: rest2 => c :: stripTrailingSlash (b :: rest2)

/-- Prepend a slash unless the string already starts with one. -/
def ensureLeadingSlash (l : List Char) : List Char :=
  match l with
  | [] => ['/']
  | c :: rest => if c = '/' then c :: rest else '/' :: c :: rest

/-- `RouterHandler.normalizePath`: collapse repeated slashes, strip the
trailing slash, ensure a leading slash. -/
def normalizePath (path : String) : String :=
  ⟨ensureLeadingSlash (stripTrailingSlash (collapseSlashes path.data))⟩

/-- `path.split('/').filter(Boolean)`: the non-empty path segments. -/
def pathSegments (path : String) : List String :=
  (splitOnCharS '/' path).filter (· ≠ "")

/-- `segment.startsWith(':')`, on the character list. -/
def segIsParam (s : String) : Bool :=
  match s.data with
  | c :: _ => c = ':'
  | [] => false

/-- `segment.slice(1)`: drop the first character. -/
def stringTail (s : String) : String :=
  ⟨s.data.drop 1⟩

/-- The behaviour of an embedded callback: call its continuation `next`,
do not call it, or throw synchronously. -/
inductive CbAction where
  | callNext : CbAction
  | stop : CbAction
  | throwErr : String → CbAction
deriving DecidableEq

/-- An embedded route/middleware callback, identified by a label. -/
structure Callback where
  label : String
  action : CbAction
deriving DecidableEq

/-- `RouterStructure` (`interfaces/RouterStructure.ts`): a registered route.
`params` is the mutable field written by `DomainHandler.find`. -/
structure RouterStructure where
  path : String
  method : String
  callbacks : List Callback
  params : List (String × String) := []
deriving DecidableEq

/-- `RouteNode` (`nodes/RouterNode.ts`): children keyed by segment or `"*"`,
the per-method route table, and the captured-parameter name for a node
reached through a wildcard. -/
inductive RouteNode where
  | node (children : List (String × RouteNode))
      (methods : List (String × RouterStructure))
      (paramName : Option String)

def RouteNode.children : RouteNode → List (String × RouteNode)
  | .node ch _ _ => ch

def RouteNode.methods : RouteNode → List (String × RouterStructure)
  | .node _ ms _ => ms

def RouteNode.paramName : RouteNode → Option String
  | .node _ _ pn => pn

/-- `new RouteNode()`. -/
def RouteNode.empty : RouteNode := .node [] [] none

/-- Overwrite the parameter name (`node.paramName = segment.slice(1)`). -/
def RouteNode.withParamName : RouteNode → String → RouteNode
  | .node ch ms _, pn => .node ch ms (some pn)

namespace RouterHandler

/--
The segment loop of `RouterHandler.add` (the variant storing the route under
`node.methods[route.method]`): walk/create a child per segment, keying
parameterized segments (starting with `:`) as `"*"` and recording the
stripped name as that child's `paramName` (overwriting any previous one);
store the route in the terminal node's method table.
-/
def addSegs : RouteNode → List String → RouterStructure → RouteNode
  | .node ch ms pn, [], r => .node ch (jsSet ms r.method r) pn
  | .node ch ms pn, seg :: rest, r =>
    let isParam := segIsParam seg
    let key := if isParam then "*" else seg
    let child0 := match jsGet ch key with
      | some c => c
      | none => RouteNode.empty
    let child1 := if isParam then child0.withParamName (stringTail seg) else child0
    .node (jsSet ch key (addSegs child1 rest r)) ms pn

/-- `RouterHandler.add`: split the route's path on `/`, drop empty segments,
and insert. -/
def add (root : RouteNode) (route : RouterStructure) : RouteNode :=
  addSegs root (pathSegments route.path) route

/-- `RouterHandler.create`: normalize the path, then `add` — used by the
`get`/`post`/`put`/`delete`/`patch`/`options` helpers. -/
def create (root : RouteNode) (method path : String) (callbacks : List Callback) :
    RouteNode :=
  add root { path := normalizePath path, method := method, callbacks := callbacks }

/-- `RouterHandler.route`: `add` directly, without normalization. -/
def routeAdd (root : RouteNode) (route : RouterStructure) : RouteNode :=
  add root route

end RouterHandler

/-- `DomainThree` (`nodes/RouterNode.ts`): children keyed by reversed host
label, plus the domain's route trie, middleware list, static directory and
custom 404 handler. -/
inductive DomainThree where
  | node (children : List (String × DomainThree))
      (routes : RouteNode)
      (uses : List Callback)
      (staticUrl : Option String)
      (notFoundCb : Option Callback)

def DomainThree.children : DomainThree → List (String × DomainThree)
  | .node ch _ _ _ _ => ch

def DomainThree.routes : DomainThree → RouteNode
  | .node _ r _ _ _ => r

def DomainThree.uses : DomainThree → List Callback
  | .node _ _ u _ _ => u

def DomainThree.staticUrl : DomainThree → Option String
  | .node _ _ _ s _ => s

def DomainThree.notFoundCb : DomainThree → Option Callback
  | .node _ _ _ _ n => n

/-- The dispatch record built by `DomainHandler.find` and stored in the route
cache (`route`, `uses`, `staticUrl`, `'404'`, `find`). -/
structure FindData where
  route : Option RouterStructure
  uses : List Callback
  staticUrl : Option String
  notFoundCb : Option Callback
  find : Bool
deriving DecidableEq

/-- The default record `find` initializes for a resolved domain: no route,
the domain's middleware/static/404 data, `find = false`. -/
def baseRecord (d : DomainThree) : FindData :=
  { route := none, uses := d.uses, staticUrl := d.staticUrl,
    notFoundCb := d.notFoundCb, find := false }

/-- `DomainHandler.findDomain`'s label walk: exact label preferred, `"*"`
wildcard fallback, failure otherwise. -/
def findDomainSegs : DomainThree → List String → Option DomainThree
  | n, [] => some n
  | n, seg :: rest =>
    match jsGet n.children seg with
    | some child => findDomainSegs child rest
    | none =>
      match jsGet n.children "*" with
      | some child => findDomainSegs child rest
      | none => none

/-- `DomainHandler.findDomain`: split the host on `.`, reverse, walk. -/
def findDomain (root : DomainThree) (host : String) : Option DomainThree :=
  findDomainSegs root ((splitOnCharS '.' host).reverse)

/-- `path.split('?')` destructured into `[basePath, querys]`. -/
def splitPathQuery (path : String) : String × Option String :=
  match splitOnCharS '?' path with
  | [] => ("", none)
  | [p] => (p, none)
  | p :: q :: _ => (p, some q)

/-- The query-string loop of `DomainHandler.find`: split on `&`, split each
pair on `=`, keep pairs whose key and value are both non-empty, percent-decode
the value, and write into the parameter map. -/
def parseQuery (q : String) : List (String × String) :=
  (splitOnCharS '&' q).foldl
    (fun ps query =>
      match splitOnCharS '=' query with
      | key :: value :: _ =>
        if key ≠ "" ∧ value ≠ "" then jsSet ps key (decodeURIComponent value) else ps
      | _ => ps)
    []

/-- The segment loop of `DomainHandler.find`: exact child preferred; else the
`"*"` wildcard child, recording `params[child.paramName] = segment` when the
wildcard node carries a parameter name; else the walk fails. -/
def walk : RouteNode → List String → List (String × String) →
    Option (RouteNode × List (String × String))
  | n, [], ps => some (n, ps)
  | n, seg :: rest, ps =>
    match jsGet n.children seg with
    | some child => walk child rest ps
    | none =>
      match jsGet n.children "*" with
      | some child =>
        let ps2 := match child.paramName with
          | some pn => jsSet ps pn seg
          | none => ps
        walk child rest ps2
      | none => none

/-- The mutable state of a `DomainHandler`: the domain trie and the route
cache. -/
structure DomainHandler where
  domains : DomainThree
  routeCache : LRUCache String FindData

/-- The route-cache key `host-path-method` used by `cacheRoute` and
`getCacheRoute`. -/
def cacheKey (host path method : String) : String :=
  host ++ "-" ++ path ++ "-" ++ method

namespace DomainHandler

/-- `DomainHandler.getCacheRoute`: an LRU `get` on the composite key. -/
def getCacheRoute (dh : DomainHandler) (host path method : String) :
    Option FindData × DomainHandler :=
  let (r, c) := dh.routeCache.get (cacheKey host path method)
  (r, { dh with routeCache := c })

/-- `DomainHandler.cacheRoute`: force `find = true` on the record (mutating
the object `find` will also return), then store it under the composite key. -/
def cacheRoute (dh : DomainHandler) (host path method : String) (r : FindData) :
    FindData × DomainHandler :=
  let r1 := if r.find then r else { r with find := true }
  (r1, { dh with routeCache := dh.routeCache.set (cacheKey host path method) r1 })

/--
`DomainHandler.find`: reject empty inputs; consult the cache; resolve the
domain; parse the query string into the parameter map; walk the route trie;
on a method hit, inject the parameters into the handler, cache the (now
`find = true`) record and return it; otherwise return the domain's default
record without caching.
-/
def find (dh : DomainHandler) (path host method : String) :
    Option FindData × DomainHandler :=
  if path = "" ∨ host = "" ∨ method = "" then (none, dh)
  else
    match dh.getCacheRoute host path method with
    | (some r, dh1) => (some r, dh1)
    | (none, dh1) =>
      match findDomain dh1.domains host with
      | none => (none, dh1)
      | some d =>
        let data := baseRecord d
        let pq := splitPathQuery path
        let segments := pathSegments pq.1
        let params := match pq.2 with
          | some q => if q ≠ "" then parseQuery q else []
          | none => []
        match walk d.routes segments params with
        | none => (some data, dh1)
        | some (n, ps) =>
          match jsGet n.methods method with
          | some handler =>
            let handler1 := { handler with params := ps }
            let data1 := { data with route := some handler1 }
            let r := dh1.cacheRoute host path method data1
            (some r.1, r.2)
          | none => (some data, dh1)

end DomainHandler

/-- A request as seen by the dispatcher: URL, host, method and the mutable
`params` map (`RequestHandler`). -/
structure RequestR where
  url : String
  host : String
  method : String
  params : List (String × String)

/--
The `next()`-driven chain of `executeMiddlewares`: callbacks run strictly in
list order; each executed callback logs its label with the parameter map it
observes; a callback that does not call `next` (`stop`) ends the chain
normally; a synchronous `throw` aborts the chain and rejects the surrounding
`async` function's promise (`Except.error`).
-/
def runChain (params : List (String × String)) :
    List Callback → List (String × List (String × String)) × Except String Unit
  | [] => ([], .ok ())
  | cb :: rest =>
    match cb.action with
    | .stop => ([(cb.label, params)], .ok ())
    | .throwErr msg => ([(cb.label, params)], .error msg)
    | .callNext =>
      let r := runChain params rest
      ((cb.label, params) :: r.1, r.2)

/-- `DomainHandler.executeMiddlewares`: prepend the domain middleware
(`callbacks = [...uses, ...callbacks]`), then run the chain. -/
def executeMiddlewares (callbacks uses : List Callback)
    (params : List (String × String)) :
    List (String × List (String × String)) × Except String Unit :=
  runChain params (uses ++ callbacks)

/-- Outcome of evaluating a JS call expression synchronously: a value, or a
synchronously thrown exception. -/
inductive SyncOutcome (α : Type) where
  | value : α → SyncOutcome α
  | thrown : String → SyncOutcome α

/--
Calling the `async` method `executeMiddlewares`: an `async` function call
never throws synchronously — a `throw` inside its body (before or after an
`await`) surfaces as a rejection of the returned promise. The call therefore
always evaluates to the promise's eventual contents.
-/
def asyncExecuteMiddlewares (callbacks uses : List Callback)
    (params : List (String × String)) :
    SyncOutcome (List (String × List (String × String)) × Except String Unit) :=
  .value (executeMiddlewares callbacks uses params)

/-- The message of a rejected promise that nothing awaits. -/
def errOf : Except String Unit → Option String
  | .ok _ => none
  | .error m => some m

/-- Observable outcome of one dispatch: the record `handleRequest` returns,
the ordered execution log, whether the `catch` branch sent a 500 (with the
error message), whether a rejected middleware promise was left unhandled, and
whether an exception escaped `handleRequest` itself. -/
structure DispatchResult where
  found : Option FindData
  log : List (String × List (String × String))
  sent500 : Option String
  unhandled : Option String
  crashed : Option String
deriving DecidableEq

/--
`DomainHandler.handleRequest`: resolve the route with `find`; when no route
matched, run only the domain middleware (outside the `try`); when a route
matched with `find = true`, set `request.params` from the route and run the
pipeline inside `try { ... } catch { 500 }`. In both cases the `async`
`executeMiddlewares` call is not awaited: its returned promise's rejection
(if any) is unhandled, and the `catch` can only see a synchronous throw of
the call expression itself — which an `async` function never produces.
-/
def DomainHandler.handleRequest (dh : DomainHandler) (req : RequestR) :
    DispatchResult × DomainHandler :=
  let r0 := dh.find req.url req.host req.method
  let domainOpt := r0.1
  let dh1 := r0.2
  match domainOpt with
  | none =>
    match asyncExecuteMiddlewares [] [] req.params with
    | .value lr =>
      ({ found := none, log := lr.1, sent500 := none,
         unhandled := errOf lr.2, crashed := none }, dh1)
    | .thrown msg =>
      ({ found := none, log := [], sent500 := none,
         unhandled := none, crashed := some msg }, dh1)
  | some fd =>
    match fd.route with
    | none =>
      match asyncExecuteMiddlewares [] fd.uses req.params with
      | .value lr =>
        ({ found := some fd, log := lr.1, sent500 := none,
           unhandled := errOf lr.2, crashed := none }, dh1)
      | .thrown msg =>
        ({ found := some fd, log := [], sent500 := none,
           unhandled := none, crashed := some msg }, dh1)
    | some r =>
      if fd.find then
        match asyncExecuteMiddlewares r.callbacks fd.uses r.params with
        | .value lr =>
          ({ found := some fd, log := lr.1, sent500 := none,
             unhandled := errOf lr.2, crashed := none }, dh1)
        | .thrown msg =>
          ({ found := some fd, log := [], sent500 := some msg,
             unhandled := none, crashed := none }, dh1)
      else
        ({ found := some fd, log := [], sent500 := none,
           unhandled := none, crashed := none }, dh1)

/-- Spec-side decomposition of the trie walk: the same traversal, but
collecting the path-captured `(paramName, segment)` pairs as a standalone
list instead of writing them into the shared map. -/
def walkCaps : RouteNode → List String → Option (RouteNode × List (String × String))
  | n, [] => some (n, [])
  | n, seg :: rest =>
    match jsGet n.children seg with
    | some child => walkCaps child rest
    | none =>
      match jsGet n.children "*" with
      | some child =>
        match walkCaps child rest with
        | some nc =>
          some (nc.1, (match child.paramName with
            | some pn => [(pn, seg)]
            | none => []) ++ nc.2)
        | none => none
      | none => none

/-- Invariant of the route trie: every node's children have pairwise distinct
keys — in particular at most one `"*"` wildcard child per node. -/
inductive WfNode : RouteNode → Prop where
  | mk (ch : List (String × RouteNode)) (ms : List (String × RouterStructure))
      (pn : Option String)
      (hkeys : (jsKeys ch).Nodup) (hch : ∀ p ∈ ch, WfNode p.2) :
      WfNode (RouteNode.node ch ms pn)

/-- The non-empty `/`-separated chunks of a character list. -/
def segsC (l : List Char) : List (List Char) :=
  (splitOnChar '/' l).filter (· ≠ [])

/-- The first `/`-separated chunk. -/
def firstChunk (l : List Char) : List Char :=
  match splitOnChar '/' l with
  | chunk :: _ => chunk
  | [] => []

/-- The non-empty chunks after the first one. -/
def restSegs (l : List Char) : List (List Char) :=
  ((splitOnChar '/' l).tail).filter (· ≠ [])

/-- Follow exact child keys down the trie. -/
def nodeAt : RouteNode → List String → Option RouteNode
  | n, [] => some n
  | n, seg :: rest =>
    match jsGet n.children seg with
    | some child => nodeAt child rest
    | none => none

/-! ## Lemmas and claim theorems -/

/-- Basic jsGet/jsSet/jsDelete lemmas used throughout. -/
theorem jsGet_jsSet_self {K V : Type} [DecidableEq K]
    (m : List (K × V)) (k : K) (v : V) : jsGet (jsSet m k v) k = some v := by
  induction m with
  | nil => simp [jsSet, jsGet]
  | cons p rest ih =>
    by_cases h : p.1 = k
    · simp [jsSet, jsGet, h]
    · simp [jsSet, jsGet, h, ih]

theorem jsGet_jsSet_ne {K V : Type} [DecidableEq K]
    (m : List (K × V)) (k k' : K) (v : V) (h : k ≠ k') :
    jsGet (jsSet m k v) k' = jsGet m k' := by
  induction m with
  | nil => simp [jsSet, jsGet, h]
  | cons p rest ih =>
    by_cases hp : p.1 = k
    · simp [jsSet, jsGet, hp, h]
    · simp [jsSet, jsGet, hp, ih]

theorem jsSet_append_of_not_mem {K V : Type} [DecidableEq K]
    (m : List (K × V)) (k : K) (v : V) (h : k ∉ jsKeys m) :
    jsSet m k v = m ++ [(k, v)] := by
  induction m with
  | nil => simp [jsSet]
  | cons p rest ih =>
    simp only [jsKeys, List.map_cons, List.mem_cons] at h
    push_neg at h
    simp [jsSet, Ne.symm h.1, ih (by simpa [jsKeys] using h.2)]

theorem jsGet_eq_none_of_not_mem {K V : Type} [DecidableEq K]
    (m : List (K × V)) (k : K) (h : k ∉ jsKeys m) :
    jsGet m k = none := by
  induction m with
  | nil => rfl
  | cons p rest ih =>
    simp only [jsKeys, List.map_cons, List.mem_cons] at h
    push_neg at h
    simp [jsGet, Ne.symm h.1, ih (by simpa [jsKeys] using h.2)]

theorem jsGet_of_mem_nodup {K V : Type} [DecidableEq K]
    (m : List (K × V)) (p : K × V) (hm : p ∈ m) (hnd : (jsKeys m).Nodup) :
    jsGet m p.1 = some p.2 := by
  induction m with
  | nil => cases hm
  | cons q rest ih =>
    simp only [jsKeys, List.map_cons, List.nodup_cons] at hnd
    rcases List.mem_cons.mp hm with h | h
    · subst h; simp [jsGet]
    · have hne : q.1 ≠ p.1 := by
        intro he
        exact hnd.1 (he ▸ List.mem_map_of_mem Prod.fst h)
      simp [jsGet, hne, ih h (by simpa [jsKeys] using hnd.2)]

theorem jsGet_append {K V : Type} [DecidableEq K]
    (m₁ m₂ : List (K × V)) (k : K) :
    jsGet (m₁ ++ m₂) k = (jsGet m₁ k).orElse (fun _ => jsGet m₂ k) := by
  induction m₁ with
  | nil => simp [jsGet]
  | cons p rest ih =>
    by_cases h : p.1 = k
    · simp [jsGet, h]
    · simp [jsGet, h, ih]

theorem not_mem_jsKeys_jsDelete {K V : Type} [DecidableEq K]
    (m : List (K × V)) (k : K) (hnd : (jsKeys m).Nodup) :
    k ∉ jsKeys (jsDelete m k) := by
  induction m with
  | nil => simp [jsDelete, jsKeys]
  | cons p rest ih =>
    simp only [jsKeys, List.map_cons, List.nodup_cons] at hnd
    by_cases h : p.1 = k
    · subst h
      simpa [jsDelete, jsKeys] using hnd.1
    · simp only [jsDelete, if_neg h, jsKeys, List.map_cons, List.mem_cons]
      push_neg
      exact ⟨Ne.symm h, ih (by simpa [jsKeys] using hnd.2)⟩

theorem jsKeys_jsSet_of_mem {K V : Type} [DecidableEq K]
    (m : List (K × V)) (k : K) (v : V) (hk : k ∈ jsKeys m) :
    jsKeys (jsSet m k v) = jsKeys m := by
  induction m with
  | nil => simp [jsKeys] at hk
  | cons p rest ih =>
    by_cases h : p.1 = k
    · simp [jsSet, h, jsKeys]
    · have hk2 : k = p.1 ∨ k ∈ jsKeys rest := by
        have hkeq : jsKeys (p :: rest) = p.1 :: jsKeys rest := by simp [jsKeys]
        rw [hkeq] at hk
        exact List.mem_cons.mp hk
      have hkr : k ∈ jsKeys rest := by
        rcases hk2 with h1 | h1
        · exact absurd h1.symm h
        · exact h1
      have := ih hkr
      simp only [jsKeys] at this
      simp [jsSet, h, jsKeys, this]

/--
Filling an LRU cache below capacity with fresh keys simply appends the
entries in order and never evicts.
-/
theorem lru_fill {K V : Type} [DecidableEq K]
    (l : List (K × V)) (c : LRUCache K V)
    (hnd : (jsKeys c.cache ++ jsKeys l).Nodup)
    (hlen : c.cache.length + l.length ≤ c.maxSize) :
    List.foldl (fun cc kv => cc.set kv.1 kv.2) c l =
      { maxSize := c.maxSize, cache := c.cache ++ l } := by
  induction l generalizing c with
  | nil => simp
  | cons kv rest ih =>
    obtain ⟨k, v⟩ := kv
    have hnotmem : k ∉ jsKeys c.cache := by
      intro hk
      have := (List.nodup_append.mp (by simpa [jsKeys] using hnd)).2.2
      exact this hk (by simp [jsKeys])
    have hlt : ¬ c.maxSize ≤ c.cache.length := by
      have hl := hlen
      rw [List.length_cons] at hl
      omega
    have hset : c.set k v = { maxSize := c.maxSize, cache := c.cache ++ [(k, v)] } := by
      simp [LRUCache.set, hlt, jsSet_append_of_not_mem _ _ _ hnotmem]
    have hnd2 : (jsKeys (c.cache ++ [(k, v)]) ++ jsKeys rest).Nodup := by
      have : jsKeys (c.cache ++ [(k, v)]) ++ jsKeys rest
          = jsKeys c.cache ++ jsKeys ((k, v) :: rest) := by
        simp [jsKeys]
      rw [this]
      exact hnd
    have hlen2 : (c.cache ++ [(k, v)]).length + rest.length ≤ c.maxSize := by
      simp only [List.length_append, List.length_cons, List.length_nil] at hlen ⊢
      omega
    calc List.foldl (fun cc kv => cc.set kv.1 kv.2) c ((k, v) :: rest)
        = List.foldl (fun cc kv => cc.set kv.1 kv.2) (c.set k v) rest := by
          simp [List.foldl_cons]
      _ = { maxSize := c.maxSize, cache := c.cache ++ [(k, v)] ++ rest } := by
          rw [hset]
          exact ih _ (by simpa using hnd2) (by simpa using hlen2)
      _ = { maxSize := c.maxSize, cache := c.cache ++ (k, v) :: rest } := by
          simp

/-- `set` on a cache at capacity first deletes the first key in iteration
order, then writes the new pair. -/
theorem lru_set_evict_first {K V : Type} [DecidableEq K]
    (cap : Nat) (k0 : K) (v0 : V) (rest : List (K × V)) (k : K) (v : V)
    (h : cap ≤ rest.length + 1) :
    (LRUCache.mk cap ((k0, v0) :: rest)).set k v
      = LRUCache.mk cap (jsSet (jsDelete ((k0, v0) :: rest) k0) k v) := by
  simp [LRUCache.set, jsKeys, h]

/--
C7: for an LRU cache of capacity `cap ≥ 1`, inserting `cap + 1` distinct keys
with `set` (no intervening `get`s) evicts exactly one entry — the
first-inserted key, which `get` no longer returns — while every other key
still maps to its stored value.
-/
theorem claim_C7_lru_eviction {K V : Type} [DecidableEq K]
    (cap : Nat) (k0 : K) (v0 : V) (rest : List (K × V))
    (hcap : 1 ≤ cap) (hlen : rest.length = cap)
    (hnd : (k0 :: jsKeys rest).Nodup) :
    let final := List.foldl (fun cc kv => cc.set kv.1 kv.2)
      (LRUCache.empty K V cap) ((k0, v0) :: rest)
    final.cache.length = cap ∧ (final.get k0).1 = none ∧
      ∀ kv ∈ rest, (final.get kv.1).1 = some kv.2 := by
  intro final
  have hne : rest ≠ [] := by
    intro h
    rw [h] at hlen
    simp at hlen
    omega
  rcases List.eq_nil_or_concat rest with h | ⟨init, lst, hrest⟩
  · exact absurd h hne
  have hrest' : rest = init ++ [lst] := by simpa [List.concat_eq_append] using hrest
  subst hrest'
  have hinitlen : init.length + 1 = cap := by simpa using hlen
  -- Nodup bookkeeping
  have hndrest : (jsKeys (init ++ [lst])).Nodup := hnd.of_cons
  have hndinit : (jsKeys init).Nodup := by
    have := hndrest
    simp only [jsKeys, List.map_append, List.nodup_append] at this
    exact this.1
  have hlst_not_init : lst.1 ∉ jsKeys init := by
    have := hndrest
    simp only [jsKeys, List.map_append, List.nodup_append] at this
    intro hmem
    exact this.2.2 hmem (by simp)
  have hk0_not_rest : k0 ∉ jsKeys (init ++ [lst]) := by
    have := List.nodup_cons.mp hnd
    exact this.1
  have hk0_not_init : k0 ∉ jsKeys init := by
    intro h
    exact hk0_not_rest (by simp [jsKeys, List.map_append]; left; simpa [jsKeys] using h)
  -- fill the first cap entries
  have hfill : List.foldl (fun cc kv => cc.set kv.1 kv.2)
      (LRUCache.empty K V cap) ((k0, v0) :: init) =
      { maxSize := cap, cache := (k0, v0) :: init } := by
    have := lru_fill ((k0, v0) :: init) (LRUCache.empty K V cap)
      (by
        simp only [LRUCache.empty, jsKeys, List.map_nil, List.nil_append, List.map_cons,
          List.nodup_cons]
        exact ⟨by simpa [jsKeys] using hk0_not_init, hndinit⟩)
      (by simp [LRUCache.empty]; omega)
    simpa [LRUCache.empty] using this
  -- the final insertion evicts k0
  have hfinal : final = { maxSize := cap, cache := init ++ [lst] } := by
    show List.foldl (fun cc kv => cc.set kv.1 kv.2)
      (LRUCache.empty K V cap) ((k0, v0) :: (init ++ [lst])) = _
    have hsplit : (k0, v0) :: (init ++ [lst]) = ((k0, v0) :: init) ++ [lst] := by simp
    rw [hsplit, List.foldl_append, hfill]
    simp only [List.foldl_cons, List.foldl_nil]
    rw [lru_set_evict_first cap k0 v0 init lst.1 lst.2 (by omega)]
    have hdel : jsDelete ((k0, v0) :: init) k0 = init := by simp [jsDelete]
    rw [hdel, jsSet_append_of_not_mem _ _ _ hlst_not_init]
  constructor
  · rw [hfinal]; simpa using hinitlen
  constructor
  · rw [hfinal]
    simp only [LRUCache.get, jsGet_eq_none_of_not_mem _ _ hk0_not_rest]
  · intro kv hkv
    rw [hfinal]
    have : jsGet (init ++ [lst]) kv.1 = some kv.2 :=
      jsGet_of_mem_nodup _ _ hkv hndrest
    simp only [LRUCache.get, this]

/-- Witness for C7 at capacity 2 with keys a, b, c. -/
theorem claim_C7_lru_eviction_witness :
    (1 ≤ 2 ∧ ([("b", "2"), ("c", "3")] : List (String × String)).length = 2 ∧
      ("a" :: jsKeys [("b", "2"), ("c", "3")]).Nodup) ∧
    (let final := List.foldl (fun cc kv => cc.set kv.1 kv.2)
      (LRUCache.empty String String 2) (("a", "1") :: [("b", "2"), ("c", "3")])
     final.cache.length = 2 ∧ (final.get "a").1 = none ∧
      ∀ kv ∈ [("b", "2"), ("c", "3")], (final.get kv.1).1 = some kv.2) :=
  ⟨⟨by decide, by decide, by decide⟩,
    claim_C7_lru_eviction 2 "a" "1" [("b", "2"), ("c", "3")]
      (by decide) (by decide) (by decide)⟩

theorem mem_jsKeys_of_jsGet {K V : Type} [DecidableEq K]
    (m : List (K × V)) (k : K) (v : V) (h : jsGet m k = some v) :
    k ∈ jsKeys m := by
  induction m with
  | nil => simp [jsGet] at h
  | cons p rest ih =>
    by_cases hp : p.1 = k
    · simp [jsKeys, hp.symm]
    · simp only [jsGet, if_neg hp] at h
      simp [jsKeys]
      right
      have := ih h
      simp only [jsKeys, List.mem_map] at this
      obtain ⟨q, hq, hq2⟩ := this
      exact ⟨q.2, by rw [← hq2]; exact hq⟩

/--
C3 counterexample: on a capacity-3 cache holding `a` then `b`, re-inserting
`a` with `set` does not refresh `a`'s recency: the iteration order keeps `a`
first, and under two further inserts `a` (not `b`) is the entry evicted —
contradicting the claim that `set` makes the written key the
most-recently-used (last-to-be-evicted) entry.
-/
theorem claim_C3_counterexample :
    (let c2 := ((LRUCache.empty String String 3).set "a" "1").set "b" "2"
     let c3 := c2.set "a" "9"
     c3.cache = [("a", "9"), ("b", "2")] ∧
     ((((c3.set "c" "3").set "d" "4").get "a").1 = none ∧
      (((c3.set "c" "3").set "d" "4").get "b").1 = some "2")) := by decide

/--
C3 (amended): `get(k)` on a present key returns its value and moves `k` to the
most-recently-used (last) position; `set(k, w)` on a present key, while the
cache is below capacity, updates the value in place and leaves the key order —
hence `k`'s recency/eviction position — unchanged.
-/
theorem claim_C3_amended {K V : Type} [DecidableEq K]
    (c : LRUCache K V) (k : K) (v w : V)
    (hnd : (jsKeys c.cache).Nodup)
    (hv : jsGet c.cache k = some v)
    (hlt : c.cache.length < c.maxSize) :
    (c.get k).1 = some v ∧
    (c.get k).2.cache = jsDelete c.cache k ++ [(k, v)] ∧
    jsKeys (c.set k w).cache = jsKeys c.cache := by
  refine ⟨by simp [LRUCache.get, hv], ?_, ?_⟩
  · simp only [LRUCache.get, hv]
    exact jsSet_append_of_not_mem _ _ _ (not_mem_jsKeys_jsDelete _ _ hnd)
  · have hguard : ¬ c.maxSize ≤ c.cache.length := by omega
    simp only [LRUCache.set, if_neg hguard]
    exact jsKeys_jsSet_of_mem _ _ _ (mem_jsKeys_of_jsGet _ _ _ hv)

/-- Witness for the amended C3 on the cache `[a ↦ 1, b ↦ 2]` of capacity 3. -/
theorem claim_C3_amended_witness :
    ((jsKeys ([("a", "1"), ("b", "2")] : List (String × String))).Nodup ∧
     jsGet ([("a", "1"), ("b", "2")] : List (String × String)) "a" = some "1" ∧
     ([("a", "1"), ("b", "2")] : List (String × String)).length < 3) ∧
    (((LRUCache.mk 3 [("a", "1"), ("b", "2")]).get "a").1 = some "1" ∧
     ((LRUCache.mk 3 [("a", "1"), ("b", "2")]).get "a").2.cache
        = jsDelete [("a", "1"), ("b", "2")] "a" ++ [("a", "1")] ∧
     jsKeys ((LRUCache.mk 3 [("a", "1"), ("b", "2")]).set "a" "9").cache
        = jsKeys ([("a", "1"), ("b", "2")] : List (String × String))) :=
  ⟨⟨by decide, by decide, by decide⟩,
   claim_C3_amended (LRUCache.mk 3 [("a", "1"), ("b", "2")]) "a" "1" "9"
     (by decide) (by decide) (by decide)⟩

/--
C1 (code-bug evaluation): dispatching `GET /x` to a route whose only callback
throws synchronously (`"boom"`). Because `handleRequest` calls the `async`
`executeMiddlewares` without `await`, the throw rejects the returned promise
instead of reaching the surrounding `try/catch`: no 500 response is produced
and the rejection is left unhandled — contradicting the claim that the error
is caught at the dispatcher boundary and converted to a 500.
-/
theorem claim_C1_unhandled_rejection :
    (let trie := RouterHandler.create RouteNode.empty "GET" "/x"
       [⟨"h", .throwErr "boom"⟩]
     let dh : DomainHandler :=
       ⟨.node [("localhost", .node [] trie [] none none)] RouteNode.empty [] none none,
        LRUCache.empty String FindData 500⟩
     let result := (dh.handleRequest ⟨"/x", "localhost", "GET", []⟩).1
     result.sent500 = none ∧ result.unhandled = some "boom" ∧
       result.crashed = none ∧ result.log = [("h", [])]) := by decide

/--
C4: with domain middleware `[A, B]` and route callbacks `[C, D]`, the pipeline
executes exactly `A, B, C, D` in that order (whatever the final handler `D`
does); and if `B` does not invoke its continuation, neither `C` nor `D` ever
runs.
-/
theorem claim_C4_middleware_order (a b c d : String) (actD : CbAction)
    (ps : List (String × String)) :
    (executeMiddlewares [⟨c, .callNext⟩, ⟨d, actD⟩]
        [⟨a, .callNext⟩, ⟨b, .callNext⟩] ps).1.map Prod.fst = [a, b, c, d] ∧
    (executeMiddlewares [⟨c, .callNext⟩, ⟨d, actD⟩]
        [⟨a, .callNext⟩, ⟨b, .stop⟩] ps).1.map Prod.fst = [a, b] := by
  cases actD <;> simp [executeMiddlewares, runChain]

/-- Whatever the eviction guard did, the key just written by `LRUCache.set`
maps to the written value. -/
theorem jsGet_lruSet_self {K V : Type} [DecidableEq K]
    (c : LRUCache K V) (k : K) (v : V) :
    jsGet (c.set k v).cache k = some v := by
  simp only [LRUCache.set]
  exact jsGet_jsSet_self _ _ _

/--
C2 counterexample: on a fresh dispatcher with only `GET /a` registered,
resolving the unmatched path `/b` yields a `find = false` record but stores
nothing in the route cache — refuting the claim that "not found" results are
cached like "found" ones.
-/
theorem claim_C2_counterexample :
    (let trie := RouterHandler.create RouteNode.empty "GET" "/a"
       [⟨"h", .callNext⟩]
     let dh : DomainHandler :=
       ⟨.node [("localhost", .node [] trie [] none none)] RouteNode.empty [] none none,
        LRUCache.empty String FindData 500⟩
     let r := dh.find "/b" "localhost" "GET"
     r.1.map FindData.find = some false ∧ r.2.routeCache.cache = []) := by decide

/--
C2 (amended): only successful resolutions are cached. On a cache miss, if
`find` returns a record with `find = false` the dispatcher state (and in
particular the route cache) is unchanged, so repeated failed lookups
re-traverse the trie each time; if it returns a record with `find = true`,
that record is stored under the `host-path-method` key.
-/
theorem claim_C2_amended (dh : DomainHandler) (path host method : String)
    (r : FindData) (dh2 : DomainHandler)
    (hmiss : dh.getCacheRoute host path method = (none, dh))
    (hfind : dh.find path host method = (some r, dh2)) :
    (r.find = false → dh2 = dh) ∧
    (r.find = true → jsGet dh2.routeCache.cache (cacheKey host path method) = some r) := by
  unfold DomainHandler.find at hfind
  split at hfind
  · simp at hfind
  · rw [hmiss] at hfind
    simp only at hfind
    split at hfind
    · simp at hfind
    next d hd =>
      split at hfind
      · -- walk failed: the default record is returned, nothing cached
        simp only [Prod.mk.injEq, Option.some.injEq] at hfind
        obtain ⟨h1, h2⟩ := hfind
        subst h1
        subst h2
        refine ⟨fun _ => rfl, fun hfalse => ?_⟩
        simp [baseRecord] at hfalse
      next n ps hwalk =>
        split at hfind
        next handler hhandler =>
          -- method hit: the record is forced to find = true and cached
          simp only [DomainHandler.cacheRoute, baseRecord, Prod.mk.injEq,
            Option.some.injEq] at hfind
          obtain ⟨h1, h2⟩ := hfind
          subst h1
          subst h2
          refine ⟨fun hfalse => by simp at hfalse, fun _ => ?_⟩
          exact jsGet_lruSet_self _ _ _
        · -- path matched but no handler for the method: nothing cached
          simp only [Prod.mk.injEq, Option.some.injEq] at hfind
          obtain ⟨h1, h2⟩ := hfind
          subst h1
          subst h2
          refine ⟨fun _ => rfl, fun hfalse => ?_⟩
          simp [baseRecord] at hfalse

/-- Witness for the amended C2: a fresh dispatcher with `GET /a` registered,
resolved at `("/a", "localhost", "GET")`. -/
theorem claim_C2_amended_witness :
    (let trie := RouterHandler.create RouteNode.empty "GET" "/a"
       [⟨"h", .callNext⟩]
     let dh : DomainHandler :=
       ⟨.node [("localhost", .node [] trie [] none none)] RouteNode.empty [] none none,
        LRUCache.empty String FindData 500⟩
     let route1 : RouterStructure :=
       { path := "/a", method := "GET", callbacks := [⟨"h", .callNext⟩], params := [] }
     let fd1 : FindData :=
       { route := some route1, uses := [], staticUrl := none,
         notFoundCb := none, find := true }
     let dh2 : DomainHandler :=
       ⟨dh.domains, ⟨500, [(cacheKey "localhost" "/a" "GET", fd1)]⟩⟩
     (fd1.find = false → dh2 = dh) ∧
     (fd1.find = true →
       jsGet dh2.routeCache.cache (cacheKey "localhost" "/a" "GET") = some fd1)) :=
  claim_C2_amended _ "/a" "localhost" "GET" _ _ rfl rfl

/--
C10: the route-cache key is the plain concatenation `host-path-method`, which
is not injective: the distinct triples `("a-b", "c", "GET")` and
`("a", "b-c", "GET")` share the key `"a-b-c-GET"`, and a dispatch record
cached for the first triple is returned by a cache lookup for the second.
-/
theorem claim_C10_cache_key_collision :
    (cacheKey "a-b" "c" "GET" = cacheKey "a" "b-c" "GET") ∧
    (("a-b", "c", "GET") : String × String × String) ≠ ("a", "b-c", "GET") ∧
    (let dh : DomainHandler :=
       ⟨DomainThree.node [] RouteNode.empty [] none none,
        LRUCache.empty String FindData 500⟩
     let fd : FindData :=
       { route := none, uses := [], staticUrl := none,
         notFoundCb := none, find := true }
     let dh2 := (dh.cacheRoute "a-b" "c" "GET" fd).2
     (dh2.getCacheRoute "a" "b-c" "GET").1 = some fd) := by decide

/--
C6: under the same domain and a cold cache, a path whose trie node exists but
has no handler for the request's method resolves to exactly the same result
as a path absent from the trie: both produce the domain's default
`find = false` record, unchanged dispatcher state — so method-not-allowed is
behaviorally indistinguishable from route-not-found and falls through the
same fallback chain.
-/
theorem claim_C6_method_not_allowed_is_not_found
    (dh : DomainHandler) (host method p1 p2 : String)
    (d : DomainThree) (n : RouteNode) (ps : List (String × String))
    (hp1 : ¬ p1 = "") (hp2 : ¬ p2 = "") (hh : ¬ host = "") (hm : ¬ method = "")
    (hmiss1 : dh.getCacheRoute host p1 method = (none, dh))
    (hmiss2 : dh.getCacheRoute host p2 method = (none, dh))
    (hdom : findDomain dh.domains host = some d)
    (hwalk1 : walk d.routes (pathSegments (splitPathQuery p1).1)
        (match (splitPathQuery p1).2 with
         | some q => if q ≠ "" then parseQuery q else []
         | none => []) = some (n, ps))
    (hnometh : jsGet n.methods method = none)
    (hwalk2 : walk d.routes (pathSegments (splitPathQuery p2).1)
        (match (splitPathQuery p2).2 with
         | some q => if q ≠ "" then parseQuery q else []
         | none => []) = none) :
    dh.find p1 host method = dh.find p2 host method ∧
    dh.find p1 host method = (some (baseRecord d), dh) := by
  have e1 : dh.find p1 host method = (some (baseRecord d), dh) := by
    unfold DomainHandler.find
    rw [if_neg (by simp [hp1, hh, hm])]
    simp only [hmiss1, hdom, hwalk1, hnometh]
  have e2 : dh.find p2 host method = (some (baseRecord d), dh) := by
    unfold DomainHandler.find
    rw [if_neg (by simp [hp2, hh, hm])]
    simp only [hmiss2, hdom, hwalk2]
  exact ⟨e1.trans e2.symm, e1⟩

/-- Witness for C6: `GET /a` registered; `POST /a` (method not allowed) and
`GET /b` (path absent) resolve identically. -/
theorem claim_C6_witness :
    (let route1 : RouterStructure :=
       { path := "/a", method := "GET", callbacks := [⟨"h", .callNext⟩], params := [] }
     let d : DomainThree :=
       .node [] (RouteNode.node [("a", RouteNode.node [] [("GET", route1)] none)] [] none)
         [] none none
     let dh : DomainHandler :=
       ⟨.node [("localhost", d)] RouteNode.empty [] none none,
        LRUCache.empty String FindData 500⟩
     dh.find "/a" "localhost" "POST" = dh.find "/b" "localhost" "POST" ∧
     dh.find "/a" "localhost" "POST" = (some (baseRecord d), dh)) :=
  claim_C6_method_not_allowed_is_not_found _ "localhost" "POST" "/a" "/b" _
    (RouteNode.node [] [("GET",
      { path := "/a", method := "GET", callbacks := [⟨"h", .callNext⟩], params := [] })] none)
    [] (by decide) (by decide) (by decide) (by decide) rfl rfl rfl rfl rfl rfl

/-- Every executed callback observes exactly the parameter map the chain was
started with. -/
theorem runChain_snd_eq (params : List (String × String)) (cbs : List Callback) :
    ∀ e ∈ (runChain params cbs).1, e.2 = params := by
  induction cbs with
  | nil => simp [runChain]
  | cons cb rest ih =>
    intro e he
    cases h : cb.action <;> rw [runChain, h] at he
    · rcases List.mem_cons.mp he with h1 | h1
      · rw [h1]
      · exact ih e h1
    · simp at he
      rw [he]
    · simp at he
      rw [he]

/--
The parameter map produced by a successful trie walk started from the parsed
query string equals the query pairs overridden by the path captures: a key
captured on the path maps to its (last) captured segment regardless of the
query, and any other key keeps its query value.
-/
theorem walk_params_merge (segs : List String) (t : RouteNode)
    (qp : List (String × String)) (n : RouteNode) (ps : List (String × String))
    (hwalk : walk t segs qp = some (n, ps)) :
    ∃ caps, walkCaps t segs = some (n, caps) ∧
      ∀ k, jsGet ps k =
        match jsGet caps.reverse k with
        | some v => some v
        | none => jsGet qp k := by
  induction segs generalizing t qp with
  | nil =>
    rw [walk] at hwalk
    simp only [Option.some.injEq, Prod.mk.injEq] at hwalk
    obtain ⟨h1, h2⟩ := hwalk
    subst h1
    subst h2
    exact ⟨[], rfl, fun k => by simp [jsGet]⟩
  | cons seg rest ih =>
    rw [walk] at hwalk
    rcases hex : jsGet t.children seg with _ | child
    · rw [hex] at hwalk
      simp only at hwalk
      rcases hwc : jsGet t.children "*" with _ | child
      · rw [hwc] at hwalk
        simp at hwalk
      · rw [hwc] at hwalk
        simp only at hwalk
        rcases hpn : child.paramName with _ | pn
        · rw [hpn] at hwalk
          simp only at hwalk
          obtain ⟨caps, hcaps, hprop⟩ := ih child qp hwalk
          refine ⟨caps, ?_, hprop⟩
          rw [walkCaps]
          simp [hex, hwc, hcaps, hpn]
        · rw [hpn] at hwalk
          simp only at hwalk
          obtain ⟨caps, hcaps, hprop⟩ := ih child (jsSet qp pn seg) hwalk
          refine ⟨(pn, seg) :: caps, ?_, ?_⟩
          · rw [walkCaps]
            simp [hex, hwc, hcaps, hpn]
          · intro k
            have hrev : ((pn, seg) :: caps).reverse = caps.reverse ++ [(pn, seg)] := by
              simp
            rw [hrev, jsGet_append]
            rcases hcr : jsGet caps.reverse k with _ | v
            · have := hprop k
              rw [hcr] at this
              rw [this]
              simp only [Option.orElse]
              by_cases hk : pn = k
              · subst hk
                simp [jsGet, jsGet_jsSet_self]
              · simp [jsGet, hk, jsGet_jsSet_ne qp pn k seg hk]
            · have := hprop k
              rw [hcr] at this
              rw [this]
              simp [Option.orElse]
    · rw [hex] at hwalk
      simp only at hwalk
      obtain ⟨caps, hcaps, hprop⟩ := ih child qp hwalk
      exact ⟨caps, by rw [walkCaps, hex]; exact hcaps, hprop⟩

theorem executeMiddlewares_snd_eq (cbs uses : List Callback)
    (params : List (String × String)) :
    ∀ e ∈ (executeMiddlewares cbs uses params).1, e.2 = params :=
  runChain_snd_eq params (uses ++ cbs)

/-- Every callback executed by a dispatch whose resolved record carries a
route observes exactly that route's parameter map: the dispatcher installs
`request.params = route.params` before starting the chain. -/
theorem handleRequest_params_seen (dh : DomainHandler) (req : RequestR)
    (fd : FindData) (r : RouterStructure)
    (hhr : ((dh.handleRequest req).1).found = some fd)
    (hr : fd.route = some r) :
    ∀ e ∈ ((dh.handleRequest req).1).log, e.2 = r.params := by
  unfold DomainHandler.handleRequest at hhr ⊢
  rcases hfind : dh.find req.url req.host req.method with ⟨fo, dh1⟩
  rw [hfind] at hhr
  dsimp only at hhr ⊢
  rcases fo with _ | fd0
  · dsimp only [asyncExecuteMiddlewares] at hhr
    simp at hhr
  · dsimp only at hhr ⊢
    rcases hroute : fd0.route with _ | r0
    · rw [hroute] at hhr
      dsimp only [asyncExecuteMiddlewares] at hhr ⊢
      obtain rfl : fd0 = fd := by
        simpa using hhr
      rw [hr] at hroute
      cases hroute
    · rw [hroute] at hhr
      dsimp only at hhr ⊢
      cases hf : fd0.find with
      | false =>
        rw [hf] at hhr
        simp
      | true =>
        rw [hf] at hhr
        simp only [if_true] at hhr ⊢
        dsimp only [asyncExecuteMiddlewares] at hhr ⊢
        obtain rfl : fd0 = fd := by
          simpa using hhr
        have : r0 = r := by
          rw [hroute] at hr
          exact Option.some.inj hr
        subst this
        exact executeMiddlewares_snd_eq _ _ _

/--
C5: for a matched request with path captures and a query string, (a) the
parameter map produced by the walk equals the parsed query pairs merged with
the path-captured parameters, where a path capture wins over a query key of
the same name (path parameters are written after query parsing); and (b) the
map is installed on the request before the chain starts, so every executed
callback observes exactly the matched route's parameter map.
-/
theorem claim_C5_params_before_callbacks
    (t : RouteNode) (segs : List String) (q : String)
    (n : RouteNode) (ps : List (String × String))
    (dh : DomainHandler) (req : RequestR) (fd : FindData) (r : RouterStructure)
    (hwalk : walk t segs (parseQuery q) = some (n, ps))
    (hhr : ((dh.handleRequest req).1).found = some fd)
    (hr : fd.route = some r) :
    (∃ caps, walkCaps t segs = some (n, caps) ∧
      ∀ k, jsGet ps k =
        match jsGet caps.reverse k with
        | some v => some v
        | none => jsGet (parseQuery q) k) ∧
    (∀ e ∈ ((dh.handleRequest req).1).log, e.2 = r.params) :=
  ⟨walk_params_merge segs t (parseQuery q) n ps hwalk,
   handleRequest_params_seen dh req fd r hhr hr⟩

/-- Witness for C5: route `/user/:id`, request `/user/12345?a=1&b=2&id=999` —
the parameter map is `a = 1, b = 2, id = 12345` (path capture wins over the
query's `id=999`) and the callback observes exactly it. -/
theorem claim_C5_params_before_callbacks_witness :
    (let r0 : RouterStructure := { path := "/user/:id", method := "GET", callbacks := [⟨"h", CbAction.callNext⟩], params := [] }
     let leaf : RouteNode := RouteNode.node [] [("GET", r0)] (some "id")
     let t : RouteNode := RouteNode.node [("user", RouteNode.node [("*", leaf)] [] none)] [] none
     let dh : DomainHandler := ⟨.node [("localhost", .node [] t [] none none)] RouteNode.empty [] none none, LRUCache.empty String FindData 500⟩
     let req : RequestR := ⟨"/user/12345?a=1&b=2&id=999", "localhost", "GET", []⟩
     let ps : List (String × String) := [("a", "1"), ("b", "2"), ("id", "12345")]
     let r1 : RouterStructure := { path := "/user/:id", method := "GET", callbacks := [⟨"h", CbAction.callNext⟩], params := ps }
     (∃ caps, walkCaps t ["user", "12345"] = some (leaf, caps) ∧
       ∀ k, jsGet ps k =
         match jsGet caps.reverse k with
         | some v => some v
         | none => jsGet (parseQuery "a=1&b=2&id=999") k) ∧
     (∀ e ∈ ((dh.handleRequest req).1).log, e.2 = r1.params)) :=
  claim_C5_params_before_callbacks
    (RouteNode.node [("user", RouteNode.node [("*", RouteNode.node [] [("GET", { path := "/user/:id", method := "GET", callbacks := [⟨"h", CbAction.callNext⟩], params := [] })] (some "id"))] [] none)] [] none)
    ["user", "12345"] "a=1&b=2&id=999"
    (RouteNode.node [] [("GET", { path := "/user/:id", method := "GET", callbacks := [⟨"h", CbAction.callNext⟩], params := [] })] (some "id"))
    [("a", "1"), ("b", "2"), ("id", "12345")]
    ⟨.node [("localhost", .node [] (RouteNode.node [("user", RouteNode.node [("*", RouteNode.node [] [("GET", { path := "/user/:id", method := "GET", callbacks := [⟨"h", CbAction.callNext⟩], params := [] })] (some "id"))] [] none)] [] none) [] none none)] RouteNode.empty [] none none, LRUCache.empty String FindData 500⟩
    ⟨"/user/12345?a=1&b=2&id=999", "localhost", "GET", []⟩
    { route := some { path := "/user/:id", method := "GET", callbacks := [⟨"h", CbAction.callNext⟩], params := [("a", "1"), ("b", "2"), ("id", "12345")] }, uses := [], staticUrl := none, notFoundCb := none, find := true }
    { path := "/user/:id", method := "GET", callbacks := [⟨"h", CbAction.callNext⟩], params := [("a", "1"), ("b", "2"), ("id", "12345")] }
    rfl rfl rfl

theorem mem_of_jsGet {K V : Type} [DecidableEq K]
    (m : List (K × V)) (k : K) (v : V) (h : jsGet m k = some v) : (k, v) ∈ m := by
  induction m with
  | nil => simp [jsGet] at h
  | cons p rest ih =>
    by_cases hp : p.1 = k
    · rw [jsGet, if_pos hp] at h
      have hkv : (k, v) = p := by
        obtain ⟨p1, p2⟩ := p
        simp only at hp
        simp only [Option.some.injEq] at h
        rw [← hp, ← h]
      rw [hkv]
      exact List.mem_cons_self _ _
    · rw [jsGet, if_neg hp] at h
      exact List.mem_cons_of_mem _ (ih h)

theorem mem_jsSet {K V : Type} [DecidableEq K]
    (m : List (K × V)) (k : K) (v : V) (p : K × V) (h : p ∈ jsSet m k v) :
    p = (k, v) ∨ p ∈ m := by
  induction m with
  | nil => simpa [jsSet] using h
  | cons q rest ih =>
    by_cases hq : q.1 = k
    · rw [jsSet, if_pos hq] at h
      rcases List.mem_cons.mp h with h1 | h1
      · exact Or.inl h1
      · exact Or.inr (List.mem_cons_of_mem _ h1)
    · rw [jsSet, if_neg hq] at h
      rcases List.mem_cons.mp h with h1 | h1
      · exact Or.inr (h1 ▸ List.mem_cons_self _ _)
      · rcases ih h1 with h2 | h2
        · exact Or.inl h2
        · exact Or.inr (List.mem_cons_of_mem _ h2)

theorem jsKeys_jsSet_nodup {K V : Type} [DecidableEq K]
    (m : List (K × V)) (k : K) (v : V) (h : (jsKeys m).Nodup) :
    (jsKeys (jsSet m k v)).Nodup := by
  by_cases hk : k ∈ jsKeys m
  · rw [jsKeys_jsSet_of_mem m k v hk]
    exact h
  · rw [jsSet_append_of_not_mem m k v hk]
    have hkeys : jsKeys (m ++ [(k, v)]) = jsKeys m ++ [k] := by simp [jsKeys]
    rw [hkeys]
    refine List.Nodup.append h (by simp) ?_
    intro a ha hak
    have hae : a = k := by simpa using hak
    exact hk (hae ▸ ha)

/-- A map with distinct keys has at most one entry under any given key. -/
theorem filter_key_length_le_one {K V : Type} [DecidableEq K]
    (m : List (K × V)) (k : K) (h : (jsKeys m).Nodup) :
    (m.filter (fun p => p.1 = k)).length ≤ 1 := by
  induction m with
  | nil => simp
  | cons p rest ih =>
    simp only [jsKeys, List.map_cons, List.nodup_cons] at h
    by_cases hp : p.1 = k
    · have hrest : rest.filter (fun q => q.1 = k) = [] := by
        rw [List.filter_eq_nil_iff]
        intro q hq
        simp only [decide_eq_true_eq]
        intro hqk
        exact h.1 (by rw [hp, ← hqk]; exact List.mem_map_of_mem Prod.fst hq)
      simp [List.filter_cons, hp, hrest]
    · simp only [List.filter_cons]
      rw [if_neg (by simp [hp])]
      exact ih (by simpa [jsKeys] using h.2)

theorem wf_empty : WfNode RouteNode.empty :=
  WfNode.mk [] [] none (by simp [jsKeys]) (by simp)

theorem wf_withParamName (n : RouteNode) (pn : String) (h : WfNode n) :
    WfNode (n.withParamName pn) := by
  cases h with
  | mk ch ms pn0 hkeys hch => exact WfNode.mk ch ms (some pn) hkeys hch

/-- Route registration preserves the children-key uniqueness invariant at
every node of the trie. -/
theorem wf_addSegs (segs : List String) (n : RouteNode) (r : RouterStructure)
    (h : WfNode n) : WfNode (RouterHandler.addSegs n segs r) := by
  induction segs generalizing n with
  | nil =>
    cases h with
    | mk ch ms pn hkeys hch =>
      exact WfNode.mk ch (jsSet ms r.method r) pn hkeys hch
  | cons seg rest ih =>
    cases h with
    | mk ch ms pn hkeys hch =>
      rw [RouterHandler.addSegs]
      refine WfNode.mk _ ms pn (jsKeys_jsSet_nodup _ _ _ hkeys) ?_
      intro p hp
      rcases mem_jsSet _ _ _ p hp with h1 | h1
      · rw [h1]
        refine ih _ ?_
        have hchild0 : WfNode (match jsGet ch (if segIsParam seg then "*" else seg) with
            | some c => c
            | none => RouteNode.empty) := by
          rcases hg : jsGet ch (if segIsParam seg then "*" else seg) with _ | c
          · exact wf_empty
          · exact hch _ (mem_of_jsGet _ _ _ hg)
        cases hip : segIsParam seg
        · simpa [hip] using hchild0
        · simp only [hip, if_true]
          refine wf_withParamName _ _ ?_
          simpa [hip] using hchild0
      · exact hch p h1

/-- The outer node's `paramName` is untouched by a registration through it. -/
theorem addSegs_paramName (segs : List String) (n : RouteNode) (r : RouterStructure) :
    (RouterHandler.addSegs n segs r).paramName = n.paramName := by
  cases n with
  | node ch ms pn => cases segs <;> rfl

theorem withParamName_paramName (n : RouteNode) (q : String) :
    (n.withParamName q).paramName = some q := by
  cases n
  rfl

theorem wf_wildcard_le_one (m : RouteNode) (h : WfNode m) :
    (m.children.filter (fun p => p.1 = "*")).length ≤ 1 := by
  cases h with
  | mk ch ms pn hkeys hch => exact filter_key_length_le_one ch "*" hkeys

/--
C8: (a) when a node has both an exact child for the incoming segment and a
wildcard child, the walk takes the exact child; (b) registration preserves
the invariant that every node's children have distinct keys, so each node has
at most one `"*"` wildcard child; (c) registering two parameterized segments
at the same depth funnels both into the single `"*"` child, whose `paramName`
is the one from the most recent registration (last registration wins).
-/
theorem claim_C8_wildcard_policy
    (t : RouteNode) (seg : String) (rest : List String) (ps : List (String × String))
    (c w : RouteNode) (n : RouteNode) (segs : List String) (r : RouterStructure)
    (s1 s2 : String) (rest1 rest2 : List String) (r1 r2 : RouterStructure)
    (hc : jsGet t.children seg = some c) (_hw : jsGet t.children "*" = some w)
    (hwf : WfNode n)
    (hs1 : segIsParam s1 = true) (hs2 : segIsParam s2 = true) :
    walk t (seg :: rest) ps = walk c rest ps ∧
    WfNode (RouterHandler.addSegs n segs r) ∧
    ((RouterHandler.addSegs n segs r).children.filter (fun p => p.1 = "*")).length ≤ 1 ∧
    (∃ cc, jsGet (RouterHandler.addSegs (RouterHandler.addSegs n (s1 :: rest1) r1)
        (s2 :: rest2) r2).children "*" = some cc ∧
      cc.paramName = some (stringTail s2)) := by
  refine ⟨?_, wf_addSegs segs n r hwf,
    wf_wildcard_le_one _ (wf_addSegs segs n r hwf), ?_⟩
  · rw [walk, hc]
  · cases n with
    | node ch ms pn =>
      simp only [RouterHandler.addSegs, hs1, hs2, if_true, RouteNode.children,
        jsGet_jsSet_self]
      refine ⟨_, rfl, ?_⟩
      rw [addSegs_paramName, withParamName_paramName]

/-- Witness for C8 at a node carrying both an exact child `a` and a wildcard
child, with the registrations `/:x` then `/:y`. -/
theorem claim_C8_wildcard_policy_witness :
    (let w : RouteNode := RouteNode.node [] [] (some "p")
     let c : RouteNode := RouteNode.node [] [] none
     let t : RouteNode := RouteNode.node [("a", c), ("*", w)] [] none
     let r1 : RouterStructure := { path := "/:x", method := "GET", callbacks := [], params := [] }
     let r2 : RouterStructure := { path := "/:y", method := "GET", callbacks := [], params := [] }
     walk t ["a", "q"] [] = walk c ["q"] [] ∧
     WfNode (RouterHandler.addSegs RouteNode.empty [":x"] r1) ∧
     ((RouterHandler.addSegs RouteNode.empty [":x"] r1).children.filter
        (fun p => p.1 = "*")).length ≤ 1 ∧
     (∃ cc, jsGet (RouterHandler.addSegs (RouterHandler.addSegs RouteNode.empty [":x"] r1)
         [":y"] r2).children "*" = some cc ∧
       cc.paramName = some (stringTail ":y"))) :=
  claim_C8_wildcard_policy
    (RouteNode.node [("a", RouteNode.node [] [] none), ("*", RouteNode.node [] [] (some "p"))] [] none)
    "a" ["q"] [] (RouteNode.node [] [] none) (RouteNode.node [] [] (some "p"))
    RouteNode.empty [":x"] { path := "/:x", method := "GET", callbacks := [], params := [] }
    ":x" ":y" [] [] { path := "/:x", method := "GET", callbacks := [], params := [] }
    { path := "/:y", method := "GET", callbacks := [], params := [] }
    rfl rfl wf_empty rfl rfl

theorem splitOnChar_ne_nil (sep : Char) (l : List Char) : splitOnChar sep l ≠ [] := by
  cases l with
  | nil => simp [splitOnChar]
  | cons c rest =>
    rw [splitOnChar]
    cases h : splitOnChar sep rest with
    | nil => simp
    | cons chunk chunks => by_cases hc : c = sep <;> simp [hc]

theorem splitOnChar_sep_cons (sep : Char) (l : List Char) :
    splitOnChar sep (sep :: l) = [] :: splitOnChar sep l := by
  rw [splitOnChar]
  cases h : splitOnChar sep l with
  | nil => exact absurd h (splitOnChar_ne_nil sep l)
  | cons chunk chunks => simp

theorem splitOnChar_slash_cons_ne (c : Char) (l : List Char) (hc : ¬ c = '/') :
    splitOnChar '/' (c :: l) = (c :: firstChunk l) :: (splitOnChar '/' l).tail := by
  rw [splitOnChar]
  cases h : splitOnChar '/' l with
  | nil => exact absurd h (splitOnChar_ne_nil _ _)
  | cons chunk chunks => simp [hc, firstChunk, h]

theorem segsC_slash_cons (l : List Char) : segsC ('/' :: l) = segsC l := by
  unfold segsC
  rw [splitOnChar_sep_cons]
  simp

theorem segsC_decomp (l : List Char) :
    segsC l = (if firstChunk l = [] then [] else [firstChunk l]) ++ restSegs l := by
  unfold segsC firstChunk restSegs
  cases h : splitOnChar '/' l with
  | nil => exact absurd h (splitOnChar_ne_nil _ _)
  | cons chunk chunks =>
    by_cases hch : chunk = [] <;> simp [List.filter_cons, hch]

theorem restSegs_slash_cons (l : List Char) : restSegs ('/' :: l) = segsC l := by
  unfold restSegs segsC
  rw [splitOnChar_sep_cons]
  rfl

theorem firstChunk_slash_cons (l : List Char) : firstChunk ('/' :: l) = [] := by
  unfold firstChunk
  rw [splitOnChar_sep_cons]

theorem firstChunk_cons_ne (c : Char) (l : List Char) (hc : ¬ c = '/') :
    firstChunk (c :: l) = c :: firstChunk l := by
  unfold firstChunk
  rw [splitOnChar_slash_cons_ne c l hc]
  cases h : splitOnChar '/' l with
  | nil => exact absurd h (splitOnChar_ne_nil _ _)
  | cons chunk chunks => simp [firstChunk, h]

theorem restSegs_cons_ne (c : Char) (l : List Char) (hc : ¬ c = '/') :
    restSegs (c :: l) = restSegs l := by
  unfold restSegs
  rw [splitOnChar_slash_cons_ne c l hc]
  rfl

/-- Collapsing slash runs changes neither the first chunk nor the later
non-empty chunks. -/
theorem collapse_chunks (l : List Char) :
    firstChunk (collapseSlashes l) = firstChunk l ∧
    restSegs (collapseSlashes l) = restSegs l := by
  induction l with
  | nil => exact ⟨rfl, rfl⟩
  | cons c rest ih =>
    cases rest with
    | nil =>
      rw [collapseSlashes]
      exact ⟨rfl, rfl⟩
    | cons b rest2 =>
      rw [collapseSlashes]
      by_cases hcb : c = '/' ∧ b = '/'
      · rw [if_pos hcb]
        obtain ⟨hc, hb⟩ := hcb
        subst hc
        subst hb
        refine ⟨?_, ?_⟩
        · rw [ih.1, firstChunk_slash_cons, firstChunk_slash_cons]
        · rw [ih.2, restSegs_slash_cons, restSegs_slash_cons, segsC_slash_cons]
      · rw [if_neg hcb]
        by_cases hc : c = '/'
        · subst hc
          refine ⟨?_, ?_⟩
          · rw [firstChunk_slash_cons, firstChunk_slash_cons]
          · rw [restSegs_slash_cons, restSegs_slash_cons,
              segsC_decomp, segsC_decomp, ih.1, ih.2]
        · refine ⟨?_, ?_⟩
          · rw [firstChunk_cons_ne c _ hc, firstChunk_cons_ne c _ hc, ih.1]
          · rw [restSegs_cons_ne c _ hc, restSegs_cons_ne c _ hc, ih.2]

theorem segsC_collapse (l : List Char) :
    segsC (collapseSlashes l) = segsC l := by
  rw [segsC_decomp, segsC_decomp, (collapse_chunks l).1, (collapse_chunks l).2]

/-- Stripping one trailing slash changes neither the first chunk nor the
later non-empty chunks. -/
theorem strip_chunks (l : List Char) :
    firstChunk (stripTrailingSlash l) = firstChunk l ∧
    restSegs (stripTrailingSlash l) = restSegs l := by
  induction l with
  | nil => exact ⟨rfl, rfl⟩
  | cons c rest ih =>
    cases rest with
    | nil =>
      rw [stripTrailingSlash]
      by_cases hc : c = '/'
      · subst hc
        refine ⟨?_, ?_⟩ <;> decide
      · rw [if_neg hc]
        exact ⟨rfl, rfl⟩
    | cons b rest2 =>
      rw [stripTrailingSlash]
      by_cases hc : c = '/'
      · subst hc
        refine ⟨?_, ?_⟩
        · rw [firstChunk_slash_cons, firstChunk_slash_cons]
        · rw [restSegs_slash_cons, restSegs_slash_cons,
            segsC_decomp, segsC_decomp, ih.1, ih.2]
      · refine ⟨?_, ?_⟩
        · rw [firstChunk_cons_ne c _ hc, firstChunk_cons_ne c _ hc, ih.1]
        · rw [restSegs_cons_ne c _ hc, restSegs_cons_ne c _ hc, ih.2]

theorem segsC_strip (l : List Char) :
    segsC (stripTrailingSlash l) = segsC l := by
  rw [segsC_decomp, segsC_decomp, (strip_chunks l).1, (strip_chunks l).2]

theorem segsC_ensure (l : List Char) :
    segsC (ensureLeadingSlash l) = segsC l := by
  cases l with
  | nil => decide
  | cons c rest =>
    rw [ensureLeadingSlash]
    by_cases hc : c = '/'
    · rw [if_pos hc]
    · rw [if_neg hc, segsC_slash_cons]

theorem pathSegments_eq_segsC (s : String) :
    pathSegments s = (segsC s.data).map (fun l => (⟨l⟩ : String)) := by
  unfold pathSegments splitOnCharS segsC
  rw [List.filter_map]
  congr 1
  apply List.filter_congr
  intro x hx
  simp [String.ext_iff]

/-- Normalization does not change the non-empty path segments: splitting on
`/` and dropping empty segments ignores repeated, trailing and leading
slashes. -/
theorem pathSegments_normalizePath (p : String) :
    pathSegments (normalizePath p) = pathSegments p := by
  rw [pathSegments_eq_segsC, pathSegments_eq_segsC]
  show ((segsC (ensureLeadingSlash (stripTrailingSlash (collapseSlashes p.data)))).map
    (fun l => (⟨l⟩ : String))) = _
  rw [segsC_ensure, segsC_strip, segsC_collapse]

/-- The shape of the trie produced by a registration depends only on the
path's segments, not on the stored route payload. -/
theorem nodeAt_addSegs_isSome (segs : List String) (n : RouteNode)
    (r1 r2 : RouterStructure) (ks : List String) :
    (nodeAt (RouterHandler.addSegs n segs r1) ks).isSome
      = (nodeAt (RouterHandler.addSegs n segs r2) ks).isSome := by
  induction segs generalizing n ks with
  | nil =>
    cases n with
    | node ch ms pn =>
      cases ks with
      | nil => rfl
      | cons k kr => rfl
  | cons seg rest ih =>
    cases n with
    | node ch ms pn =>
      cases ks with
      | nil => rfl
      | cons k kr =>
        rw [RouterHandler.addSegs, RouterHandler.addSegs]
        simp only [nodeAt, RouteNode.children]
        by_cases hk : (if segIsParam seg then "*" else seg) = k
        · rw [← hk]
          simp only [jsGet_jsSet_self]
          exact ih _ kr
        · rw [jsGet_jsSet_ne _ _ _ _ hk, jsGet_jsSet_ne _ _ _ _ hk]

/--
C9 counterexample: registering through `RouterHandler.route` stores the path
as supplied, without normalization: `route({path: "//a/"})` leaves a route
whose stored path is `"//a/"`, although `normalizePath "//a/" = "/a"` — so it
is not the case that every path supplied to route registration is normalized
before being stored into the trie.
-/
theorem claim_C9_counterexample :
    (let r : RouterStructure := { path := "//a/", method := "GET", callbacks := [], params := [] }
     let t := RouterHandler.routeAdd RouteNode.empty r
     (∃ nd, jsGet t.children "a" = some nd ∧ jsGet nd.methods "GET" = some r) ∧
     normalizePath "//a/" = "/a" ∧ ("//a/" : String) ≠ "/a") :=
  ⟨⟨RouteNode.node [] [("GET", { path := "//a/", method := "GET", callbacks := [], params := [] })] none,
    rfl, rfl⟩, by decide, by decide⟩

/--
C9 (amended): paths registered through the verb helpers (`create`) are first
normalized — repeated slashes collapsed, trailing slash stripped, leading
slash ensured — while `route()` stores the path as supplied; in both cases
splitting drops empty segments, so normalization never changes the segment
list, and two registrations whose paths split to the same segments create
the same trie nodes.
-/
theorem claim_C9_normalization (root : RouteNode) (m p : String)
    (cbs : List Callback) (n : RouteNode) (r1 r2 : RouterStructure)
    (ks : List String)
    (hsegs : pathSegments r1.path = pathSegments r2.path) :
    RouterHandler.create root m p cbs
      = RouterHandler.add root { path := normalizePath p, method := m, callbacks := cbs, params := [] } ∧
    pathSegments (normalizePath p) = pathSegments p ∧
    (nodeAt (RouterHandler.add n r1) ks).isSome
      = (nodeAt (RouterHandler.add n r2) ks).isSome := by
  refine ⟨rfl, pathSegments_normalizePath p, ?_⟩
  unfold RouterHandler.add
  rw [hsegs]
  exact nodeAt_addSegs_isSome _ _ _ _ _

/-- Witness for the amended C9: `"//a/"` and `"/a"` split to the same
segments, and produce tries with the same nodes. -/
theorem claim_C9_normalization_witness :
    (pathSegments ("//a/" : String) = pathSegments ("/a" : String)) ∧
    (RouterHandler.create RouteNode.empty "GET" "//a/" []
       = RouterHandler.add RouteNode.empty { path := normalizePath "//a/", method := "GET", callbacks := [], params := [] } ∧
     pathSegments (normalizePath "//a/") = pathSegments "//a/" ∧
     (nodeAt (RouterHandler.add RouteNode.empty { path := "//a/", method := "GET", callbacks := [], params := [] }) ["a"]).isSome
       = (nodeAt (RouterHandler.add RouteNode.empty { path := "/a", method := "GET", callbacks := [], params := [] }) ["a"]).isSome) :=
  ⟨by decide,
   claim_C9_normalization RouteNode.empty "GET" "//a/" [] RouteNode.empty
     { path := "//a/", method := "GET", callbacks := [], params := [] }
     { path := "/a", method := "GET", callbacks := [], params := [] }
     ["a"] (by decide)⟩
